import Mathlib

set_option maxRecDepth 8000
set_option maxHeartbeats 1600000

/-!
Shallow embedding of the graphql-cascade reference server's tracking and
response-building core (`graphql_cascade/tracker.py`, `graphql_cascade/builder.py`),
together with theorems settling the frozen claims about it.

Modelling conventions:
* A cascade key `(typename, id)` is a pair of strings, as in the source.
* Entities are abstracted to their observable interface: `_get_entity_type`,
  `_get_entity_id` and `_get_related_entities` of an entity object are the
  `typename`, `id` and `related` fields of `EntityData`; the entity graph is a
  list of such records and entities are referenced by index into it (cycles in
  the object graph become cycles among indices).
* Python dicts are insertion-ordered association lists (`dictInsert` mirrors
  `d[k] = v`); Python sets are membership-faithful lists grown by
  `setAdd` (CPython guarantees no iteration order for sets, so order-sensitive
  facts about sets are stated over arbitrary enumerations, see `buildDeletedFrom`).
* Wall-clock values (`time.time()`, timestamps, `transaction_id`,
  `tracking_time`, `construction_time`) are environment inputs with no bearing
  on any claim; they are omitted from the state and from metadata.
* Raising an exception is modelled by `Option`: `none` is a raise.
* The recursion of `_track_entity` / `_traverse_relationships` is bounded by
  explicit fuel; the public entry points supply fuel `g.length + 1`, which is
  proved sufficient (`trackEntityF_isSome_of_lt`) for well-formed graphs.
* `peak` is a ghost observer recording the largest value ever taken by
  `current_depth`; it influences nothing and exists to state invariant I3
  ("depth ≤ max_depth throughout").
-/

/-- Cascade key: the `(typename, id)` pair identifying an entity. -/
abbrev Key : Type := String × String

/-- Abstraction of a Python entity object: its typename, id, and the indices
(into the entity graph) of the entities `_get_related_entities` yields for it. -/
structure EntityData where
  typename : String
  id : String
  related : List Nat
deriving DecidableEq, Repr

/-- `EntityChange` from tracker.py: the stored entity (by graph index — this is
the snapshot taken at the change event) and the operation string. The
`timestamp` field (wall clock) is omitted. -/
structure EntityChange where
  entityIdx : Nat
  operation : String
deriving DecidableEq, Repr

/-- Tracker configuration: the constructor arguments of `CascadeTracker`. -/
structure Cfg where
  maxDepth : Nat
  excludeTypes : List String
  enableRelationshipTracking : Bool
deriving DecidableEq, Repr

/-- Mutable state of a `CascadeTracker`.  `updated` is the insertion-ordered
dict `updated_entities`, `deleted` the set `deleted_entities` (kept as its
insertion sequence; only membership is guaranteed by Python), `visited` the set
`visited_entities`.  `peak` is a ghost field recording the maximum value
`current_depth` ever reached; it affects no behaviour. -/
structure TrackerState where
  inTransaction : Bool
  updated : List (Key × EntityChange)
  deleted : List Key
  visited : List Key
  currentDepth : Nat
  peak : Nat
deriving DecidableEq, Repr

/-- Fresh tracker, as built by `CascadeTracker.__init__`. -/
def TrackerState.init : TrackerState :=
  ⟨false, [], [], [], 0, 0⟩

/-- Python dict assignment `d[k] = v`: replace in place if the key is present,
else append. -/
def dictInsert (l : List (Key × EntityChange)) (k : Key) (v : EntityChange) :
    List (Key × EntityChange) :=
  if k ∈ l.map Prod.fst then
    l.map (fun p => if p.1 = k then (k, v) else p)
  else
    l ++ [(k, v)]

/-- Python set `s.add(k)`: no-op when the element is already present. -/
def setAdd (l : List Key) (k : Key) : List Key :=
  if k ∈ l then l else l ++ [k]

/-- Entity lookup by graph index; out-of-range indices yield a dummy entity
(this situation never arises for well-formed graphs, see `ValidGraph`). -/
def getEnt (g : List EntityData) (e : Nat) : EntityData :=
  g.getD e ⟨"", "", []⟩

/-- Cascade key of an entity: `(_get_entity_type(e), _get_entity_id(e))`. -/
def entityKey (ent : EntityData) : Key :=
  (ent.typename, ent.id)

/-- Iterate a per-element `Option`-valued step over a list, short-circuiting on
`none` — the loop of `_traverse_relationships` over the related entities. -/
def runList (f : Nat → TrackerState → Option TrackerState) :
    List Nat → TrackerState → Option TrackerState
  | [], st => some st
  | e :: es, st => (f e st).bind (runList f es)

/-- `CascadeTracker._track_entity` (with `_traverse_relationships` inlined),
bounded by fuel.  Skips excluded typenames, skips visited keys, records the
change in `updated`, and — when relationship tracking is on and
`current_depth < max_depth` — increments the depth, tracks every related
entity as `UPDATED`, and decrements the depth again. -/
def trackEntityF (cfg : Cfg) (g : List EntityData) :
    Nat → Nat → String → TrackerState → Option TrackerState
  | 0, _, _, _ => none
  | fuel + 1, e, op, st =>
    let ent := getEnt g e
    let key := entityKey ent
    if ent.typename ∈ cfg.excludeTypes then
      some st
    else if key ∈ st.visited then
      some st
    else
      let st1 : TrackerState :=
        { st with
          visited := setAdd st.visited key
          updated := dictInsert st.updated key ⟨e, op⟩ }
      if cfg.enableRelationshipTracking = true ∧ st1.currentDepth < cfg.maxDepth then
        match runList (fun r s => trackEntityF cfg g fuel r "UPDATED" s) ent.related
            { st1 with
              currentDepth := st1.currentDepth + 1
              peak := max st1.peak (st1.currentDepth + 1) } with
        | none => none
        | some st2 => some { st2 with currentDepth := st2.currentDepth - 1 }
      else
        some st1

/-- `CascadeTracker.start_transaction`: raises when already in a transaction,
otherwise clears all tracking state.  The generated `transaction_id` (wall
clock) is omitted. -/
def start_transaction (st : TrackerState) : Option TrackerState :=
  if st.inTransaction then none
  else some ⟨true, [], [], [], 0, st.peak⟩

/-- `CascadeTracker.track_create`: requires an open transaction, then runs
`_track_entity(entity, "CREATED")`. -/
def track_create (cfg : Cfg) (g : List EntityData) (st : TrackerState) (e : Nat) :
    Option TrackerState :=
  if st.inTransaction then trackEntityF cfg g (g.length + 1) e "CREATED" st else none

/-- `CascadeTracker.track_update`: requires an open transaction, then runs
`_track_entity(entity, "UPDATED")`. -/
def track_update (cfg : Cfg) (g : List EntityData) (st : TrackerState) (e : Nat) :
    Option TrackerState :=
  if st.inTransaction then trackEntityF cfg g (g.length + 1) e "UPDATED" st else none

/-- `CascadeTracker.track_delete`: requires an open transaction, adds the key
to the deleted set and pops it from `updated_entities`.  Note the source
performs no `exclude_types` check and no `visited` bookkeeping here. -/
def track_delete (st : TrackerState) (typename entityId : String) :
    Option TrackerState :=
  if st.inTransaction then
    some { st with
      deleted := setAdd st.deleted (typename, entityId)
      updated := st.updated.filter (fun p => p.1 ≠ (typename, entityId)) }
  else none

/-- One tracking call as issued by the entity event source. -/
inductive TrackCall where
  | create (e : Nat)
  | update (e : Nat)
  | delete (typename entityId : String)
deriving DecidableEq, Repr

/-- Execute one tracking call. -/
def stepCall (cfg : Cfg) (g : List EntityData) (st : TrackerState) :
    TrackCall → Option TrackerState
  | .create e => track_create cfg g st e
  | .update e => track_update cfg g st e
  | .delete ty i => track_delete st ty i

/-- Begin a transaction on a fresh tracker and execute a sequence of tracking
calls; `none` when any step raises (or fuel runs out, which
`trackEntityF_isSome_of_lt` rules out on well-formed graphs). -/
def run (cfg : Cfg) (g : List EntityData) (calls : List TrackCall) :
    Option TrackerState :=
  (start_transaction TrackerState.init).bind
    (fun st => calls.foldlM (stepCall cfg g) st)

/-- A graph is well formed when every related-entity index is in range. -/
def ValidGraph (g : List EntityData) : Prop :=
  ∀ ent ∈ g, ∀ r ∈ ent.related, r < g.length

instance : DecidablePred ValidGraph := fun g =>
  inferInstanceAs (Decidable (∀ ent ∈ g, ∀ r ∈ ent.related, r < g.length))

/-- Set of cascade keys occurring in the graph. -/
def keysOf (g : List EntityData) : Finset Key :=
  (g.map entityKey).toFinset

/-- Number of graph keys not yet visited: the termination measure. -/
def unvisited (g : List EntityData) (st : TrackerState) : Nat :=
  (keysOf g \ st.visited.toFinset).card

/-- Entry of the `updated` list of a cascade payload
(`_build_updated_entities`).  The serialized entity dict is represented by the
graph index of the snapshot it was taken from. -/
structure UpdatedRecord where
  typename : String
  id : String
  operation : String
  entityIdx : Nat
deriving DecidableEq, Repr

/-- Entry of the `deleted` list of a cascade payload
(`_build_deleted_entities`); the `deletedAt` wall-clock stamp is omitted. -/
structure DeletedRecord where
  typename : String
  id : String
deriving DecidableEq, Repr

/-- Cascade metadata.  `transaction_id`, `timestamp`, `tracking_time` and
`construction_time` are wall-clock values and omitted; a `truncated_*` dict key
being present is modelled by the corresponding Boolean being `true`. -/
structure Metadata where
  depth : Nat
  affectedCount : Nat
  truncatedUpdated : Bool
  truncatedDeleted : Bool
  truncatedInvalidations : Bool
  truncatedSize : Bool
deriving DecidableEq, Repr

/-- Metadata dict with none of the optional `truncated_*` keys set. -/
def Metadata.mk0 (depth affectedCount : Nat) : Metadata :=
  ⟨depth, affectedCount, false, false, false, false⟩

/-- Invalidation hints are opaque to the builder (it only counts and slices
them), so they are represented by tokens. -/
abbrev Hint : Type := Nat

/-- `CascadeTracker._build_updated_entities`: one record per entry of the
`updated` dict, in dict (insertion) order.  Per-entity serialization failures
(skipped entries) do not arise in the model. -/
def build_updated_entities (st : TrackerState) : List UpdatedRecord :=
  st.updated.map (fun p => ⟨p.1.1, p.1.2, p.2.operation, p.2.entityIdx⟩)

/-- `CascadeTracker._build_deleted_entities` applied to one enumeration of the
deleted set.  CPython iterates `deleted_entities` (a hash set of string pairs)
in an unspecified, hash-seed-dependent order, so the enumeration is a
parameter; any permutation of the recorded insertion sequence is a possible
iteration order. -/
def buildDeletedFrom (enum : List Key) : List DeletedRecord :=
  enum.map (fun k => ⟨k.1, k.2⟩)

/-- Cascade data as returned by `end_transaction` / `get_cascade_data`. -/
structure CascadeData where
  updated : List UpdatedRecord
  deleted : List DeletedRecord
  metadata : Metadata
deriving DecidableEq, Repr

/-- Cascade data of the current tracker state (shared body of
`end_transaction` and `get_cascade_data`); the deleted set is rendered through
the given enumeration choice, by default its insertion sequence. -/
def cascadeDataOf (st : TrackerState) : CascadeData :=
  { updated := build_updated_entities st
    deleted := buildDeletedFrom st.deleted
    metadata := Metadata.mk0 st.currentDepth (st.updated.length + st.deleted.length) }

/-- `CascadeTracker._reset_transaction_state`: everything cleared.  The ghost
`peak` field is carried over (it observes the whole history). -/
def reset_transaction_state (st : TrackerState) : TrackerState :=
  ⟨false, [], [], [], 0, st.peak⟩

/-- `CascadeTracker.end_transaction`: raises (`none`) when no transaction is
in progress *and* both change containers are empty; otherwise returns the
cascade data and resets the state. -/
def end_transaction (st : TrackerState) : Option (CascadeData × TrackerState) :=
  if st.inTransaction = false ∧ st.updated = [] ∧ st.deleted = [] then none
  else some (cascadeDataOf st, reset_transaction_state st)

/-- `CascadeTracker.get_cascade_data`: raises (`none`) when no transaction is
in progress; otherwise returns the cascade data without ending the
transaction. -/
def get_cascade_data (st : TrackerState) : Option CascadeData :=
  if st.inTransaction then some (cascadeDataOf st) else none

/-- Constructor arguments of `CascadeBuilder`.  `max_response_size_mb` is a
Python float; it is modelled as a rational (exact for every value the
comparison in `_apply_size_limits` is sensitive to at the claim sites). -/
structure BuilderCfg where
  maxUpdatedEntities : Nat
  maxDeletedEntities : Nat
  maxInvalidations : Nat
  maxResponseSizeMB : ℚ
deriving DecidableEq, Repr

/-- The `cascade` dict of a `CascadeResponse`.  `invalidations = none` models
the `"invalidations"` key being absent from the dict (which happens on the
error path when an in-progress transaction is ended, since `end_transaction`
returns a dict without that key). -/
structure CascadePayload where
  updated : List UpdatedRecord
  deleted : List DeletedRecord
  invalidations : Option (List Hint)
  metadata : Metadata
deriving DecidableEq, Repr

/-- `CascadeResponse` (the `data` field, an opaque primary result, is
omitted; errors are opaque tokens since the builder only serializes them). -/
structure CascadeResponse where
  success : Bool
  cascade : CascadePayload
  errors : List Nat
deriving DecidableEq, Repr

/-- `CascadeBuilder._estimate_response_size`, in bytes. -/
def estimate_response_size (u d i : Nat) : Nat :=
  (u + d) * 1024 + i * 512 + 1024

/-- The size check `response_size > max_response_size_mb * 1024 * 1024` of
`_apply_size_limits`, written by cross-multiplication over the numerator and
denominator of the rational bound (equivalent since the denominator is
positive; this integer form reduces inside the kernel). -/
def exceedsSizeLimit (mb : ℚ) (estimate : Nat) : Prop :=
  mb.num * 1024 * 1024 < (estimate : ℤ) * mb.den

instance (mb : ℚ) (estimate : Nat) : Decidable (exceedsSizeLimit mb estimate) :=
  inferInstanceAs (Decidable (_ < _))

/-- `CascadeBuilder._apply_size_limits`: truncate `updated`, `deleted` and
`invalidations` to their caps (recording a `truncated_*` flag on each actual
truncation), then, when the size estimate exceeds `max_response_size_mb` MiB
and more than 100 entities remain, cut both entity lists to 50 and set the
`size` flag. -/
def apply_size_limits (b : BuilderCfg) (u : List UpdatedRecord)
    (d : List DeletedRecord) (i : List Hint) (m : Metadata) : CascadePayload :=
  let u1 := if u.length > b.maxUpdatedEntities then u.take b.maxUpdatedEntities else u
  let m1 := if u.length > b.maxUpdatedEntities then { m with truncatedUpdated := true } else m
  let d1 := if d.length > b.maxDeletedEntities then d.take b.maxDeletedEntities else d
  let m2 := if d.length > b.maxDeletedEntities then { m1 with truncatedDeleted := true } else m1
  let i1 := if i.length > b.maxInvalidations then i.take b.maxInvalidations else i
  let m3 := if i.length > b.maxInvalidations then { m2 with truncatedInvalidations := true } else m2
  if exceedsSizeLimit b.maxResponseSizeMB
      (estimate_response_size u1.length d1.length i1.length) ∧
      u1.length + d1.length > 100 then
    ⟨u1.take 50, d1.take 50, some i1, { m3 with truncatedSize := true }⟩
  else
    ⟨u1, d1, some i1, m3⟩

/-- `CascadeBuilder.build_response`: read the cascade data (raising when no
transaction is in progress), end the transaction, compute invalidations only
when an invalidator is configured and `success` holds (already sliced to
`max_invalidations` here, before `_apply_size_limits` runs), apply the size
limits, and assemble the response.  `inval` is the list the configured
invalidator's `compute_invalidations` would return (`none` = no invalidator). -/
def build_response (b : BuilderCfg) (st : TrackerState)
    (inval : Option (List Hint)) (success : Bool) (errors : List Nat) :
    Option (CascadeResponse × TrackerState) :=
  match get_cascade_data st with
  | none => none
  | some cd =>
    match end_transaction st with
    | none => none
    | some (_, st') =>
      let invs : List Hint :=
        match inval, success with
        | some l, true => l.take b.maxInvalidations
        | _, _ => []
      let payload := apply_size_limits b cd.updated cd.deleted invs cd.metadata
      some (⟨success, payload, errors⟩, st')

/-- `CascadeBuilder.build_error_response`: when a transaction is in progress,
end it and keep the returned dict (whose `updated`/`deleted` are those of the
transaction and which has no `invalidations` key); otherwise use an empty
cascade.  In both cases the metadata is then replaced by zeroed minimal
metadata.  Always returns `success = false`. -/
def build_error_response (st : TrackerState) (errors : List Nat) :
    CascadeResponse × TrackerState :=
  let base : CascadePayload := ⟨[], [], some [], Metadata.mk0 0 0⟩
  let pst : CascadePayload × TrackerState :=
    if st.inTransaction then
      match end_transaction st with
      | some (cd, st') => (⟨cd.updated, cd.deleted, none, cd.metadata⟩, st')
      | none => (base, st)
    else (base, st)
  (⟨false, { pst.1 with metadata := Metadata.mk0 0 0 }, errors⟩, pst.2)

/-- Normal exit of the `CascadeTransaction` context manager: the transaction
flag (and the wall-clock bookkeeping) is cleared but the tracked data is kept. -/
def contextExit (st : TrackerState) : TrackerState :=
  { st with inTransaction := false }

/-- A tracking call is a delete event. -/
def TrackCall.isDelete : TrackCall → Bool
  | .delete _ _ => true
  | _ => false

lemma mem_setAdd_self (l : List Key) (k : Key) : k ∈ setAdd l k := by
  unfold setAdd
  split
  · assumption
  · simp

lemma mem_setAdd_of_mem {l : List Key} {k : Key} (k' : Key) (h : k ∈ l) :
    k ∈ setAdd l k' := by
  unfold setAdd
  split
  · exact h
  · simp [h]

lemma setAdd_nodup {l : List Key} (k : Key) (h : l.Nodup) : (setAdd l k).Nodup := by
  unfold setAdd
  split
  · exact h
  · rename_i hk
    simp [List.nodup_append, h, hk]

/-- Python dict lookup `d.get(k)` on the association-list model. -/
def lookupKey (l : List (Key × EntityChange)) (k : Key) : Option EntityChange :=
  match l with
  | [] => none
  | p :: t => if p.1 = k then some p.2 else lookupKey t k

lemma lookupKey_map_ne {k k' : Key} (v : EntityChange) (hne : k ≠ k')
    (l : List (Key × EntityChange)) :
    lookupKey (l.map (fun p => if p.1 = k' then (k', v) else p)) k = lookupKey l k := by
  induction l with
  | nil => simp [lookupKey]
  | cons p t ih =>
    by_cases hp : p.1 = k'
    · have hk : ¬ (k' = k) := fun h => hne h.symm
      have hpk : ¬ (p.1 = k) := by rw [hp]; exact hk
      simp [lookupKey, hp, hk, hpk, ih]
    · simp only [List.map_cons, if_neg hp, lookupKey, ih]

lemma lookupKey_append_ne {k k' : Key} (v : EntityChange) (hne : k ≠ k')
    (l : List (Key × EntityChange)) :
    lookupKey (l ++ [(k', v)]) k = lookupKey l k := by
  induction l with
  | nil =>
    have hk : ¬ (k' = k) := fun h => hne h.symm
    simp [lookupKey, hk]
  | cons p t ih =>
    by_cases hp : p.1 = k
    · simp [lookupKey, hp]
    · simp [lookupKey, hp, ih]

lemma lookupKey_dictInsert_ne (l : List (Key × EntityChange)) {k k' : Key}
    (v : EntityChange) (hne : k ≠ k') :
    lookupKey (dictInsert l k' v) k = lookupKey l k := by
  unfold dictInsert
  split
  · exact lookupKey_map_ne v hne l
  · exact lookupKey_append_ne v hne l

lemma lookupKey_map_self {k : Key} (v : EntityChange)
    (l : List (Key × EntityChange)) (hmem : k ∈ l.map Prod.fst) :
    lookupKey (l.map (fun p => if p.1 = k then (k, v) else p)) k = some v := by
  induction l with
  | nil => simp at hmem
  | cons p t ih =>
    by_cases hp : p.1 = k
    · simp [lookupKey, hp]
    · have hmem' : k ∈ t.map Prod.fst := by
        rcases (by simpa using hmem : k = p.1 ∨ k ∈ t.map Prod.fst) with h | h
        · exact absurd h.symm hp
        · exact h
      simp only [List.map_cons, if_neg hp, lookupKey, if_neg hp, ih hmem']

lemma lookupKey_append_self {k : Key} (v : EntityChange)
    (l : List (Key × EntityChange)) (hmem : ¬ k ∈ l.map Prod.fst) :
    lookupKey (l ++ [(k, v)]) k = some v := by
  induction l with
  | nil => simp [lookupKey]
  | cons p t ih =>
    have hp : ¬ (p.1 = k) := fun h => hmem (by simp [h])
    have hmem' : ¬ k ∈ t.map Prod.fst := fun h => hmem (by simp [h])
    simp [lookupKey, hp, ih hmem']

lemma lookupKey_dictInsert_self (l : List (Key × EntityChange)) (k : Key)
    (v : EntityChange) : lookupKey (dictInsert l k v) k = some v := by
  unfold dictInsert
  split
  · rename_i hmem
    exact lookupKey_map_self v l hmem
  · rename_i hmem
    exact lookupKey_append_self v l hmem

lemma runList_rel (R : TrackerState → TrackerState → Prop)
    (hrefl : ∀ s, R s s)
    (htrans : ∀ a b c, R a b → R b c → R a c)
    (f : Nat → TrackerState → Option TrackerState)
    (hf : ∀ e s s', f e s = some s' → R s s') :
    ∀ es s s', runList f es s = some s' → R s s' := by
  intro es
  induction es with
  | nil =>
    intro s s' h
    simp only [runList, Option.some.injEq] at h
    exact h ▸ hrefl s
  | cons e t ih =>
    intro s s' h
    simp only [runList] at h
    obtain ⟨s1, h1, h2⟩ := Option.bind_eq_some.mp h
    exact htrans _ _ _ (hf e s s1 h1) (ih s1 s' h2)

lemma runList_inv (Q : TrackerState → Prop)
    (f : Nat → TrackerState → Option TrackerState)
    (hf : ∀ e s s', f e s = some s' → Q s → Q s') :
    ∀ es s s', runList f es s = some s' → Q s → Q s' :=
  runList_rel (fun a b => Q a → Q b) (fun _ q => q) (fun _ _ _ h1 h2 q => h2 (h1 q)) f hf

lemma runList_isSome (g : List EntityData) (fuel : Nat)
    (f : Nat → TrackerState → Option TrackerState)
    (hm : ∀ e s s', f e s = some s' → unvisited g s' ≤ unvisited g s) :
    ∀ es, (∀ e ∈ es, ∀ s, unvisited g s < fuel → (f e s).isSome) →
      ∀ s, unvisited g s < fuel → (runList f es s).isSome := by
  intro es
  induction es with
  | nil =>
    intro _ s _
    simp [runList]
  | cons e t ih =>
    intro h s hs
    obtain ⟨s1, hf1⟩ := Option.isSome_iff_exists.mp (h e (by simp) s hs)
    have hs1 : unvisited g s1 < fuel := lt_of_le_of_lt (hm _ _ _ hf1) hs
    simp only [runList, hf1, Option.bind_some]
    exact ih (fun e' he' => h e' (by simp [he'])) s1 hs1

/-- State relation preserved by `_track_entity`: the deleted set, the
transaction flag and the current depth are unchanged, the visited set grows,
and the `updated` entry of any already-visited key is untouched. -/
def TrackRel (st st' : TrackerState) : Prop :=
  st'.deleted = st.deleted ∧
  st'.inTransaction = st.inTransaction ∧
  st'.currentDepth = st.currentDepth ∧
  (∀ k ∈ st.visited, k ∈ st'.visited) ∧
  (∀ k v, k ∈ st.visited → lookupKey st.updated k = some v →
    lookupKey st'.updated k = some v)

lemma TrackRel.refl (s : TrackerState) : TrackRel s s :=
  ⟨rfl, rfl, rfl, fun _ h => h, fun _ _ _ h => h⟩

lemma TrackRel.trans {a b c : TrackerState} (h1 : TrackRel a b) (h2 : TrackRel b c) :
    TrackRel a c := by
  obtain ⟨d1, t1, c1, v1, u1⟩ := h1
  obtain ⟨d2, t2, c2, v2, u2⟩ := h2
  exact ⟨d2.trans d1, t2.trans t1, c2.trans c1,
    fun k hk => v2 k (v1 k hk),
    fun k v hk hu => u2 k v (v1 k hk) (u1 k v hk hu)⟩

lemma trackEntityF_rel (cfg : Cfg) (g : List EntityData) :
    ∀ fuel e op st st', trackEntityF cfg g fuel e op st = some st' →
      TrackRel st st' := by
  intro fuel
  induction fuel with
  | zero =>
    intro e op st st' h
    simp [trackEntityF] at h
  | succ n ih =>
    intro e op st st' h
    simp only [trackEntityF] at h
    split at h
    · cases h
      exact TrackRel.refl st
    · split at h
      · cases h
        exact TrackRel.refl st
      · rename_i hexc hvis
        split at h
        · rename_i hcond
          split at h
          · cases h
          · rename_i st2 hrun
            cases h
            have hrel := runList_rel TrackRel TrackRel.refl
              (fun _ _ _ => TrackRel.trans)
              (fun r s => trackEntityF cfg g n r "UPDATED" s)
              (fun r s s' hs => ih r "UPDATED" s s' hs) _ _ _ hrun
            obtain ⟨d2, t2, c2, v2, u2⟩ := hrel
            refine ⟨by simpa using d2, by simpa using t2, ?_, ?_, ?_⟩
            · simp only [c2]
              simp
            · intro k hk
              have : k ∈ setAdd st.visited (entityKey (getEnt g e)) :=
                mem_setAdd_of_mem _ hk
              simpa using v2 k (by simpa using this)
            · intro k v hk hu
              have hne : k ≠ entityKey (getEnt g e) := fun hkk => hvis (hkk ▸ hk)
              have hu1 : lookupKey (dictInsert st.updated (entityKey (getEnt g e))
                  ⟨e, op⟩) k = some v := by
                rw [lookupKey_dictInsert_ne _ _ hne]
                exact hu
              have hkv : k ∈ setAdd st.visited (entityKey (getEnt g e)) :=
                mem_setAdd_of_mem _ hk
              simpa using u2 k v (by simpa using hkv) (by simpa using hu1)
        · cases h
          refine ⟨by simp, by simp, by simp, ?_, ?_⟩
          · intro k hk
            simpa using mem_setAdd_of_mem _ hk
          · intro k v hk hu
            have hne : k ≠ entityKey (getEnt g e) := fun hkk => hvis (hkk ▸ hk)
            simpa using (lookupKey_dictInsert_ne st.updated ⟨e, op⟩ hne).symm ▸ hu

lemma trackEntityF_peak (cfg : Cfg) (g : List EntityData) :
    ∀ fuel e op st st', trackEntityF cfg g fuel e op st = some st' →
      st.currentDepth ≤ cfg.maxDepth → st.peak ≤ cfg.maxDepth →
      st'.peak ≤ cfg.maxDepth := by
  intro fuel
  induction fuel with
  | zero =>
    intro e op st st' h
    simp [trackEntityF] at h
  | succ n ih =>
    intro e op st st' h hd hp
    simp only [trackEntityF] at h
    split at h
    · cases h; exact hp
    · split at h
      · cases h; exact hp
      · split at h
        · rename_i hcond
          split at h
          · cases h
          · rename_i st2 hrun
            cases h
            have hlt : st.currentDepth < cfg.maxDepth := by
              simpa using hcond.2
            have hinv := runList_inv
              (fun s => s.currentDepth ≤ cfg.maxDepth ∧ s.peak ≤ cfg.maxDepth)
              (fun r s => trackEntityF cfg g n r "UPDATED" s)
              (fun r s s' hs hq =>
                ⟨((trackEntityF_rel cfg g n r "UPDATED" s s' hs).2.2.1) ▸ hq.1,
                  ih r "UPDATED" s s' hs hq.1 hq.2⟩)
              _ _ _ hrun
            have hq2 := hinv (by
              refine ⟨by simpa using hlt, ?_⟩
              simpa using Nat.max_le.mpr ⟨hp, hlt⟩)
            simpa using hq2.2
        · cases h
          exact hp

lemma trackEntityF_nodup (cfg : Cfg) (g : List EntityData) :
    ∀ fuel e op st st', trackEntityF cfg g fuel e op st = some st' →
      st.visited.Nodup → st'.visited.Nodup := by
  intro fuel
  induction fuel with
  | zero =>
    intro e op st st' h
    simp [trackEntityF] at h
  | succ n ih =>
    intro e op st st' h hnd
    simp only [trackEntityF] at h
    split at h
    · cases h; exact hnd
    · split at h
      · cases h; exact hnd
      · split at h
        · split at h
          · cases h
          · rename_i st2 hrun
            cases h
            have hinv := runList_inv (fun s => s.visited.Nodup)
              (fun r s => trackEntityF cfg g n r "UPDATED" s)
              (fun r s s' hs hq => ih r "UPDATED" s s' hs hq)
              _ _ _ hrun
            simpa using hinv (by simpa using setAdd_nodup _ hnd)
        · cases h
          simpa using setAdd_nodup _ hnd

lemma getEnt_mem : ∀ (g : List EntityData) (e : Nat), e < g.length → getEnt g e ∈ g
  | a :: t, 0, _ => by simp [getEnt, List.getD]
  | a :: t, n + 1, h => by
    have ht : n < t.length := by simpa using h
    have := getEnt_mem t n ht
    simp only [getEnt, List.getD] at this ⊢
    simp only [List.get?_cons_succ]
    exact List.mem_cons_of_mem a this

lemma unvisited_le_of_subset (g : List EntityData) {a b : TrackerState}
    (h : ∀ k ∈ a.visited, k ∈ b.visited) : unvisited g b ≤ unvisited g a := by
  apply Finset.card_le_card
  apply Finset.sdiff_subset_sdiff (Finset.Subset.refl _)
  intro k hk
  rw [List.mem_toFinset] at hk ⊢
  exact h k hk

lemma trackEntityF_unvisited_le (cfg : Cfg) (g : List EntityData)
    (fuel e : Nat) (op : String) (st st' : TrackerState)
    (h : trackEntityF cfg g fuel e op st = some st') :
    unvisited g st' ≤ unvisited g st :=
  unvisited_le_of_subset g (trackEntityF_rel cfg g fuel e op st st' h).2.2.2.1

lemma unvisited_setAdd_fresh (g : List EntityData) (st : TrackerState)
    (k : Key) (hk : k ∈ keysOf g) (hfresh : k ∉ st.visited) :
    (keysOf g \ (setAdd st.visited k).toFinset).card + 1 =
      (keysOf g \ st.visited.toFinset).card := by
  rw [setAdd, if_neg hfresh]
  have h1 : (st.visited ++ [k]).toFinset = insert k st.visited.toFinset := by
    ext x
    simp [or_comm]
  rw [h1]
  have h2 : keysOf g \ insert k st.visited.toFinset =
      (keysOf g \ st.visited.toFinset).erase k := by
    ext x
    simp [Finset.mem_sdiff, Finset.mem_erase]
    tauto
  rw [h2]
  have hmem : k ∈ keysOf g \ st.visited.toFinset := by
    rw [Finset.mem_sdiff, List.mem_toFinset]
    exact ⟨hk, hfresh⟩
  rw [Finset.card_erase_of_mem hmem]
  have : 0 < (keysOf g \ st.visited.toFinset).card :=
    Finset.card_pos.mpr ⟨k, hmem⟩
  omega

lemma trackEntityF_isSome_of_lt (cfg : Cfg) (g : List EntityData)
    (hg : ValidGraph g) :
    ∀ fuel e op st, e < g.length → unvisited g st < fuel →
      (trackEntityF cfg g fuel e op st).isSome := by
  intro fuel
  induction fuel with
  | zero =>
    intro e op st _ hlt
    omega
  | succ n ih =>
    intro e op st he hlt
    simp only [trackEntityF]
    split
    · simp
    · split
      · simp
      · rename_i hexc hvis
        split
        · rename_i hcond
          have hentmem : getEnt g e ∈ g := getEnt_mem g e he
          have hkey : entityKey (getEnt g e) ∈ keysOf g := by
            rw [keysOf, List.mem_toFinset]
            exact List.mem_map_of_mem entityKey hentmem
          have hcount := unvisited_setAdd_fresh g st (entityKey (getEnt g e)) hkey
            (by simpa using hvis)
          have hrl := runList_isSome g n
            (fun r s => trackEntityF cfg g n r "UPDATED" s)
            (fun r s s' hs => trackEntityF_unvisited_le cfg g n r "UPDATED" s s' hs)
            (getEnt g e).related
            (fun r hr s hs => ih r "UPDATED" s (hg _ hentmem r hr) hs)
          have hsome : ∀ (o : Option TrackerState),
              o.isSome → (match o with
                | none => (none : Option TrackerState)
                | some st2 =>
                  some { st2 with currentDepth := st2.currentDepth - 1 }).isSome := by
            intro o ho
            match o with
            | some x => simp
            | none => simp at ho
          apply hsome
          apply hrl
          simp only [unvisited] at hlt ⊢
          simp only [setAdd] at hcount ⊢
          omega
        · simp

lemma foldlM_inv (cfg : Cfg) (g : List EntityData) (Q : TrackerState → Prop) :
    ∀ (calls : List TrackCall),
      (∀ c ∈ calls, ∀ s s', stepCall cfg g s c = some s' → Q s → Q s') →
      ∀ s s', List.foldlM (stepCall cfg g) s calls = some s' → Q s → Q s' := by
  intro calls
  induction calls with
  | nil =>
    intro _ s s' h hq
    simp only [List.foldlM_nil] at h
    cases h
    exact hq
  | cons c t ih =>
    intro hstep s s' h hq
    simp only [List.foldlM_cons] at h
    obtain ⟨s1, h1, h2⟩ := Option.bind_eq_some.mp h
    exact ih (fun c' hc' => hstep c' (by simp [hc'])) s1 s' h2
      (hstep c (by simp) s s1 h1 hq)

lemma stepCall_inTransaction (cfg : Cfg) (g : List EntityData)
    (c : TrackCall) (s s' : TrackerState) (h : stepCall cfg g s c = some s') :
    s.inTransaction = true ∧ s'.inTransaction = true := by
  cases c with
  | create e =>
    simp only [stepCall, track_create] at h
    split at h
    · rename_i ht
      exact ⟨ht, ((trackEntityF_rel cfg g _ _ _ _ _ h).2.1).trans ht⟩
    · cases h
  | update e =>
    simp only [stepCall, track_update] at h
    split at h
    · rename_i ht
      exact ⟨ht, ((trackEntityF_rel cfg g _ _ _ _ _ h).2.1).trans ht⟩
    · cases h
  | delete ty i =>
    simp only [stepCall, track_delete] at h
    split at h
    · rename_i ht
      cases h
      exact ⟨ht, ht⟩
    · cases h

lemma stepCall_nondelete_deleted (cfg : Cfg) (g : List EntityData)
    (c : TrackCall) (hc : c.isDelete = false) (s s' : TrackerState)
    (h : stepCall cfg g s c = some s') : s'.deleted = s.deleted := by
  cases c with
  | create e =>
    simp only [stepCall, track_create] at h
    split at h
    · exact (trackEntityF_rel cfg g _ _ _ _ _ h).1
    · cases h
  | update e =>
    simp only [stepCall, track_update] at h
    split at h
    · exact (trackEntityF_rel cfg g _ _ _ _ _ h).1
    · cases h
  | delete ty i => simp [TrackCall.isDelete] at hc

lemma stepCall_delete_shape (cfg : Cfg) (g : List EntityData)
    (ty i : String) (s s' : TrackerState)
    (h : stepCall cfg g s (.delete ty i) = some s') :
    s'.deleted = setAdd s.deleted (ty, i) ∧
      s'.updated = s.updated.filter (fun p => p.1 ≠ (ty, i)) := by
  simp only [stepCall, track_delete] at h
  split at h
  · cases h
    exact ⟨rfl, rfl⟩
  · cases h

lemma mem_setAdd_iff {l : List Key} {k k' : Key} :
    k ∈ setAdd l k' ↔ k ∈ l ∨ k = k' := by
  unfold setAdd
  split
  · rename_i h
    constructor
    · exact Or.inl
    · rintro (hk | rfl)
      · exact hk
      · exact h
  · simp [List.mem_append]

/-- Default tracker configuration (`max_depth=3`, no excluded types,
relationship tracking on). -/
def cfgA : Cfg := ⟨3, [], true⟩

/-- One-entity graph with a single relation-free entity `T#1`. -/
def gA : List EntityData := [⟨"T", "1", []⟩]

/-- Claim C1 is false as stated: tracking DELETE T#1 and then UPDATE of the
entity T#1 in one transaction leaves the key `(T,1)` simultaneously in
`updated` and in `deleted` — the update after the delete is not a no-op,
because `_track_entity` consults `visited_entities`, not `deleted_entities`. -/
theorem updated_deleted_not_disjoint :
    ∃ st, run cfgA gA [.delete "T" "1", .update 0] = some st ∧
      ("T", "1") ∈ st.updated.map Prod.fst ∧ ("T", "1") ∈ st.deleted := by
  refine ⟨⟨true, [(("T", "1"), ⟨0, "UPDATED"⟩)], [("T", "1")], [("T", "1")], 0, 1⟩,
    ?_, ?_, ?_⟩
  · decide
  · decide
  · decide

/-- Claim C1 (amended): `track_delete(k)` removes any prior update for k, so
for every transaction whose delete events all come after its create/update
events, `updated.keys ∩ deleted = ∅` holds at the end; the original claim's
further assertion — that a create/update for a key already in `deleted` is a
no-op — is refuted by `updated_deleted_not_disjoint`. -/
theorem updated_deleted_disjoint_of_deletes_last
    (cfg : Cfg) (g : List EntityData) (cus dels : List TrackCall)
    (hcu : ∀ c ∈ cus, c.isDelete = false)
    (hd : ∀ c ∈ dels, c.isDelete = true)
    (st : TrackerState) (hrun : run cfg g (cus ++ dels) = some st) :
    ∀ k ∈ st.updated.map Prod.fst, k ∉ st.deleted := by
  have hrun' : List.foldlM (stepCall cfg g) ⟨true, [], [], [], 0, 0⟩ (cus ++ dels) =
      some st := by
    simpa [run, start_transaction, TrackerState.init] using hrun
  rw [List.foldlM_append] at hrun'
  obtain ⟨st1, h1, h2⟩ := Option.bind_eq_some.mp hrun'
  have hdel1 : st1.deleted = [] := by
    have := foldlM_inv cfg g (fun s => s.deleted = []) cus
      (fun c hc s s' hs hq =>
        (stepCall_nondelete_deleted cfg g c (hcu c hc) s s' hs).trans hq)
      _ _ h1
    exact this rfl
  have hq2 := foldlM_inv cfg g
    (fun s => ∀ k ∈ s.updated.map Prod.fst, k ∉ s.deleted) dels
    (fun c hc s s' hs hq => by
      cases c with
      | create e => exact absurd (hd _ hc) (by simp [TrackCall.isDelete])
      | update e => exact absurd (hd _ hc) (by simp [TrackCall.isDelete])
      | delete ty i =>
        obtain ⟨hdel, hupd⟩ := stepCall_delete_shape cfg g ty i s s' hs
        intro k hk
        rw [hupd] at hk
        simp only [List.mem_map] at hk
        obtain ⟨p, hp, hpk⟩ := hk
        rw [List.mem_filter] at hp
        have hkne : k ≠ (ty, i) := by
          intro hkk
          have := hp.2
          rw [hpk, hkk] at this
          simp at this
        rw [hdel, mem_setAdd_iff]
        rintro (hkd | hkk)
        · exact hq k (by exact List.mem_map.mpr ⟨p, hp.1, hpk⟩) hkd
        · exact hkne hkk)
    _ _ h2
  exact hq2 (fun k _ hkd => by
    rw [hdel1] at hkd
    simp at hkd)

/-- Final state of the C1 witness run: CREATE T#1 then DELETE U#2. -/
def stC1w : TrackerState :=
  ⟨true, [(("T", "1"), ⟨0, "CREATED"⟩)], [("U", "2")], [("T", "1")], 0, 1⟩

/-- Witness for `updated_deleted_disjoint_of_deletes_last` at a concrete run
in which a create precedes a delete of a different key. -/
theorem updated_deleted_disjoint_of_deletes_last_witness :
    run cfgA gA ([TrackCall.create 0] ++ [TrackCall.delete "U" "2"]) = some stC1w ∧
    ("T", "1") ∈ stC1w.updated.map Prod.fst ∧ ("T", "1") ∉ stC1w.deleted :=
  ⟨by decide, by decide,
    updated_deleted_disjoint_of_deletes_last cfgA gA [TrackCall.create 0]
      [TrackCall.delete "U" "2"] (by decide) (by decide) stC1w (by decide)
      ("T", "1") (by decide)⟩

/-- Two distinct entity objects sharing the cascade key `(T,1)`. -/
def gB : List EntityData := [⟨"T", "1", []⟩, ⟨"T", "1", []⟩]

/-- Claim C2's second half is false as stated: tracking UPDATE of T#1 (object
0) and then CREATE of T#1 (object 1) leaves the key recorded as UPDATED with
the *first* snapshot — the CREATE is a no-op because the key is already in
`visited_entities`. -/
theorem update_then_create_stays_updated :
    ∃ st, run cfgA gB [.update 0, .create 1] = some st ∧
      lookupKey st.updated ("T", "1") = some ⟨0, "UPDATED"⟩ ∧
      lookupKey st.updated ("T", "1") ≠ some ⟨1, "CREATED"⟩ := by
  refine ⟨⟨true, [(("T", "1"), ⟨0, "UPDATED"⟩)], [], [("T", "1")], 0, 1⟩, ?_, ?_, ?_⟩
  · decide
  · decide
  · decide

/-- Claim C2 (amended): tracking CREATE k then DELETE k leaves k only in
`deleted`; tracking UPDATE k then CREATE k leaves k recorded as UPDATED with
the snapshot of the *first* (UPDATE) call — the second call is a no-op
(`update_then_create_stays_updated` refutes the original CREATED/latter-
snapshot wording). -/
theorem merge_law_amended
    (cfg : Cfg) (g : List EntityData) (st st1 st2 st3 st4 : TrackerState)
    (e e1 e2 : Nat) (ty i : String)
    (hc : track_create cfg g st e = some st1)
    (hk : entityKey (getEnt g e) = (ty, i))
    (hdel : track_delete st1 ty i = some st2)
    (hkey : entityKey (getEnt g e1) = entityKey (getEnt g e2))
    (hexc : (getEnt g e1).typename ∉ cfg.excludeTypes)
    (hvis : entityKey (getEnt g e1) ∉ st.visited)
    (hu : track_update cfg g st e1 = some st3)
    (hcr : track_create cfg g st3 e2 = some st4) :
    ((ty, i) ∈ st2.deleted ∧ (ty, i) ∉ st2.updated.map Prod.fst) ∧
    (st4 = st3 ∧
      lookupKey st4.updated (entityKey (getEnt g e1)) = some ⟨e1, "UPDATED"⟩) := by
  constructor
  · rw [track_delete] at hdel
    split at hdel
    · cases hdel
      refine ⟨by simpa using mem_setAdd_self _ _, ?_⟩
      intro hmem
      simp only [List.mem_map] at hmem
      obtain ⟨p, hp, hpk⟩ := hmem
      rw [List.mem_filter] at hp
      have := hp.2
      rw [hpk] at this
      simp at this
    · cases hdel
  · rw [track_update] at hu
    split at hu
    on_goal 2 => cases hu
    rename_i htr
    have hfacts : lookupKey st3.updated (entityKey (getEnt g e1)) =
        some ⟨e1, "UPDATED"⟩ ∧ entityKey (getEnt g e1) ∈ st3.visited := by
      simp only [trackEntityF] at hu
      rw [if_neg hexc] at hu
      rw [if_neg hvis] at hu
      split at hu
      · split at hu
        · cases hu
        · rename_i st2' hrunl
          cases hu
          have hrel := runList_rel TrackRel TrackRel.refl
            (fun _ _ _ => TrackRel.trans)
            (fun r s => trackEntityF cfg g g.length r "UPDATED" s)
            (fun r s s' hs => trackEntityF_rel cfg g g.length r "UPDATED" s s' hs)
            _ _ _ hrunl
          obtain ⟨_, _, _, v2, u2⟩ := hrel
          constructor
          · refine u2 (entityKey (getEnt g e1)) ⟨e1, "UPDATED"⟩ ?_ ?_
            · simpa using mem_setAdd_self st.visited (entityKey (getEnt g e1))
            · simpa using lookupKey_dictInsert_self st.updated
                (entityKey (getEnt g e1)) ⟨e1, "UPDATED"⟩
          · exact v2 (entityKey (getEnt g e1))
              (by simpa using mem_setAdd_self st.visited (entityKey (getEnt g e1)))
      · cases hu
        constructor
        · simpa using lookupKey_dictInsert_self st.updated
            (entityKey (getEnt g e1)) ⟨e1, "UPDATED"⟩
        · simpa using mem_setAdd_self st.visited (entityKey (getEnt g e1))
    have htr3 : st3.inTransaction = true :=
      ((trackEntityF_rel cfg g _ _ _ _ _ hu).2.1).trans htr
    rw [track_create] at hcr
    rw [if_pos htr3] at hcr
    have hexc2 : ¬ ((getEnt g e2).typename ∈ cfg.excludeTypes) := by
      have : (getEnt g e1).typename = (getEnt g e2).typename := by
        have := hkey
        simp only [entityKey, Prod.mk.injEq] at this
        exact this.1
      rw [← this]
      exact hexc
    have hvis2 : entityKey (getEnt g e2) ∈ st3.visited := by
      rw [← hkey]
      exact hfacts.2
    simp only [trackEntityF] at hcr
    rw [if_neg hexc2] at hcr
    rw [if_pos hvis2] at hcr
    cases hcr
    exact ⟨rfl, hfacts.1⟩

/-- Freshly begun tracker state. -/
def stB0 : TrackerState := ⟨true, [], [], [], 0, 0⟩

/-- State after CREATE T#1 (object 0) from `stB0` on `gB`. -/
def stC2c1 : TrackerState :=
  ⟨true, [(("T", "1"), ⟨0, "CREATED"⟩)], [], [("T", "1")], 0, 1⟩

/-- State after the subsequent DELETE T#1. -/
def stC2del : TrackerState :=
  ⟨true, [], [("T", "1")], [("T", "1")], 0, 1⟩

/-- State after UPDATE T#1 (object 0) from `stB0` on `gB`. -/
def stC2upd : TrackerState :=
  ⟨true, [(("T", "1"), ⟨0, "UPDATED"⟩)], [], [("T", "1")], 0, 1⟩

/-- Witness for `merge_law_amended` at concrete CREATE/DELETE and
UPDATE/CREATE runs on the key `(T,1)`. -/
theorem merge_law_amended_witness :
    ((("T", "1") ∈ stC2del.deleted ∧
      ("T", "1") ∉ stC2del.updated.map Prod.fst)) ∧
    (stC2upd = stC2upd ∧
      lookupKey stC2upd.updated (entityKey (getEnt gB 0)) = some ⟨0, "UPDATED"⟩) :=
  merge_law_amended cfgA gB stB0 stC2c1 stC2del stC2upd stC2upd 0 0 1 "T" "1"
    (by decide) (by decide) (by decide) (by decide) (by decide) (by decide)
    (by decide) (by decide)

/-- Configuration excluding the typename `AuditLog`. -/
def cfgEx : Cfg := ⟨3, ["AuditLog"], true⟩

/-- Claim C3 is false as stated: `track_delete` performs no `exclude_types`
check, so deleting an excluded `AuditLog#7` still records its key in
`deleted`. -/
theorem track_delete_ignores_exclude_types :
    ∃ st, run cfgEx [] [.delete "AuditLog" "7"] = some st ∧
      ("AuditLog", "7") ∈ st.deleted := by
  refine ⟨⟨true, [], [("AuditLog", "7")], [], 0, 0⟩, ?_, ?_⟩
  · decide
  · decide

/-- Claim C3 (amended): for an entity whose typename is excluded,
`track_create` and `track_update` leave the tracker state completely
unchanged (nothing is recorded and the walker is not invoked), but
`track_delete` records the key in `deleted` even for an excluded typename
(`track_delete_ignores_exclude_types` refutes the original claim). -/
theorem exclude_types_scope
    (cfg : Cfg) (g : List EntityData) (st st' : TrackerState) (e : Nat)
    (ty i : String)
    (hexc : (getEnt g e).typename ∈ cfg.excludeTypes)
    (htr : st.inTransaction = true)
    (hty : ty ∈ cfg.excludeTypes)
    (hdel : track_delete st ty i = some st') :
    track_create cfg g st e = some st ∧
    track_update cfg g st e = some st ∧
    (ty, i) ∈ st'.deleted := by
  refine ⟨?_, ?_, ?_⟩
  · rw [track_create, if_pos htr]
    simp only [trackEntityF]
    rw [if_pos hexc]
  · rw [track_update, if_pos htr]
    simp only [trackEntityF]
    rw [if_pos hexc]
  · rw [track_delete, if_pos htr] at hdel
    cases hdel
    simpa using mem_setAdd_self _ _

/-- Witness for `exclude_types_scope`: excluded `AuditLog#7` create/update
are no-ops and its delete still lands in `deleted`. -/
theorem exclude_types_scope_witness :
    track_create cfgEx [⟨"AuditLog", "7", []⟩] stB0 0 = some stB0 ∧
    track_update cfgEx [⟨"AuditLog", "7", []⟩] stB0 0 = some stB0 ∧
    ("AuditLog", "7") ∈ (TrackerState.mk true [] [("AuditLog", "7")] [] 0 0).deleted :=
  exclude_types_scope cfgEx [⟨"AuditLog", "7", []⟩] stB0
    ⟨true, [], [("AuditLog", "7")], [], 0, 0⟩ 0 "AuditLog" "7"
    (by decide) (by decide) (by decide) (by decide)

/-- In-progress transaction with one tracked CREATE of T#1. -/
def stC4 : TrackerState :=
  ⟨true, [(("T", "1"), ⟨0, "CREATED"⟩)], [], [("T", "1")], 0, 0⟩

/-- Claim C4 is false as stated: on the error path with an in-progress
transaction holding one tracked change, the returned payload's `updated` list
is *not* empty (it carries the transaction's records), and the
`invalidations` key is absent rather than an empty list. -/
theorem build_error_response_keeps_tracked_changes :
    (build_error_response stC4 []).1.cascade.updated = [⟨"T", "1", "CREATED", 0⟩] ∧
    (build_error_response stC4 []).1.cascade.invalidations = none := by
  constructor
  · decide
  · decide

/-- Claim C4 (amended): `build_error_response` always returns
`success = false` with metadata reset to zero depth and zero affected count,
and closes an in-progress transaction; but when a transaction was in progress
the payload retains that transaction's `updated`/`deleted` records and lacks
the `invalidations` key — only when no transaction was in progress are all
three lists empty (`build_error_response_keeps_tracked_changes` refutes the
original "empty regardless of tracked changes" wording). -/
theorem build_error_response_shape (st : TrackerState) (errs : List Nat) :
    (build_error_response st errs).1.success = false ∧
    (build_error_response st errs).1.cascade.metadata = Metadata.mk0 0 0 ∧
    (st.inTransaction = false →
      (build_error_response st errs).1.cascade = ⟨[], [], some [], Metadata.mk0 0 0⟩ ∧
      (build_error_response st errs).2 = st) ∧
    (st.inTransaction = true →
      (build_error_response st errs).1.cascade.updated = build_updated_entities st ∧
      (build_error_response st errs).1.cascade.deleted = buildDeletedFrom st.deleted ∧
      (build_error_response st errs).1.cascade.invalidations = none ∧
      (build_error_response st errs).2 = reset_transaction_state st) := by
  by_cases h : st.inTransaction = true
  · have hcond : ¬ (st.inTransaction = false ∧ st.updated = [] ∧ st.deleted = []) := by
      simp [h]
    simp [build_error_response, end_transaction, hcond, h, cascadeDataOf]
  · simp [build_error_response, h]

/-- Witness for `build_error_response_shape`, at an in-progress transaction
with one tracked change and at a fresh tracker with no transaction. -/
theorem build_error_response_shape_witness :
    (build_error_response stC4 []).1.success = false ∧
    (build_error_response stC4 []).1.cascade.updated = build_updated_entities stC4 ∧
    (build_error_response stC4 []).1.cascade.invalidations = none ∧
    (build_error_response stC4 []).2 = reset_transaction_state stC4 ∧
    (build_error_response TrackerState.init []).1.cascade =
      ⟨[], [], some [], Metadata.mk0 0 0⟩ :=
  ⟨(build_error_response_shape stC4 []).1,
    ((build_error_response_shape stC4 []).2.2.2 rfl).1,
    ((build_error_response_shape stC4 []).2.2.2 rfl).2.2.1,
    ((build_error_response_shape stC4 []).2.2.2 rfl).2.2.2,
    ((build_error_response_shape TrackerState.init []).2.2.1 rfl).1⟩

/-- Claim C5 is false as stated: after a successful `end_transaction`, a
second `end_transaction` raises (`none`) instead of returning an empty
snapshot. -/
theorem second_end_raises_cex :
    ∃ st1 d st2, start_transaction TrackerState.init = some st1 ∧
      end_transaction st1 = some (d, st2) ∧ end_transaction st2 = none := by
  refine ⟨⟨true, [], [], [], 0, 0⟩, ⟨[], [], Metadata.mk0 0 0⟩,
    ⟨false, [], [], [], 0, 0⟩, ?_, ?_, ?_⟩
  · decide
  · decide
  · decide

/-- Claim C5 (amended): `end_transaction` is *not* idempotent after success —
whenever it returns successfully, a second call on the resulting state raises
`RuntimeError` (models as `none`), because the reset state has no transaction
in progress and empty change containers. -/
theorem second_end_transaction_raises (st : TrackerState) (d : CascadeData)
    (st' : TrackerState) (h : end_transaction st = some (d, st')) :
    end_transaction st' = none := by
  rw [end_transaction] at h
  split at h
  · cases h
  · cases h
    rw [end_transaction]
    simp [reset_transaction_state]

/-- Witness for `second_end_transaction_raises` at a freshly begun
transaction. -/
theorem second_end_transaction_raises_witness :
    end_transaction stB0 = some (⟨[], [], Metadata.mk0 0 0⟩, TrackerState.init) ∧
    end_transaction TrackerState.init = none :=
  ⟨by decide,
    second_end_transaction_raises stB0 ⟨[], [], Metadata.mk0 0 0⟩
      TrackerState.init (by decide)⟩

lemma asl_lengths (b : BuilderCfg) (u : List UpdatedRecord)
    (d : List DeletedRecord) (i : List Hint) (m : Metadata)
    (hi : i.length ≤ b.maxInvalidations) :
    (apply_size_limits b u d i m).updated.length ≤ b.maxUpdatedEntities ∧
    (apply_size_limits b u d i m).deleted.length ≤ b.maxDeletedEntities ∧
    (apply_size_limits b u d i m).invalidations = some i := by
  have hinot : ¬ (i.length > b.maxInvalidations) := not_lt.mpr hi
  unfold apply_size_limits
  by_cases hu : u.length > b.maxUpdatedEntities <;>
    by_cases hd2 : d.length > b.maxDeletedEntities <;>
      simp only [hu, hd2, hinot, ite_true, ite_false, if_true, if_false] <;>
        split <;>
          refine ⟨?_, ?_, rfl⟩ <;> simp [List.length_take] <;> omega

lemma asl_flags (b : BuilderCfg) (u : List UpdatedRecord)
    (d : List DeletedRecord) (i : List Hint) (m : Metadata)
    (hi : i.length ≤ b.maxInvalidations) :
    (u.length > b.maxUpdatedEntities →
      (apply_size_limits b u d i m).metadata.truncatedUpdated = true) ∧
    (d.length > b.maxDeletedEntities →
      (apply_size_limits b u d i m).metadata.truncatedDeleted = true) ∧
    (apply_size_limits b u d i m).metadata.truncatedInvalidations =
      m.truncatedInvalidations := by
  have hinot : ¬ (i.length > b.maxInvalidations) := not_lt.mpr hi
  unfold apply_size_limits
  by_cases hu : u.length > b.maxUpdatedEntities <;>
    by_cases hd2 : d.length > b.maxDeletedEntities <;>
      simp only [hu, hd2, hinot, ite_true, ite_false, if_true, if_false] <;>
        split <;>
          refine ⟨fun h => ?_, fun h => ?_, ?_⟩ <;> simp_all

/-- Builder configuration with `max_invalidations = 1`. -/
def bC6 : BuilderCfg := ⟨500, 100, 1, 5⟩

/-- Claim C6's flag clause is false: with `max_invalidations = 1` and an
invalidator producing two hints, `build_response` truncates the
invalidations to one entry yet sets no `truncated_invalidations` flag —
the slice happens before `_apply_size_limits` ever looks at the list. -/
theorem invalidations_truncation_unflagged :
    ∃ r st', build_response bC6 stB0 (some [7, 8]) true [] = some (r, st') ∧
      r.cascade.invalidations = some [7] ∧
      r.cascade.metadata.truncatedInvalidations = false := by
  refine ⟨⟨true, ⟨[], [], some [7], Metadata.mk0 0 0⟩, []⟩, TrackerState.init,
    ?_, ?_, ?_⟩
  · decide
  · decide
  · decide

/-- Claim C6 (amended): every successfully built response respects all three
caps, and truncation of `updated` or `deleted` sets the corresponding flag;
but the `truncated_invalidations` flag is *never* set by `build_response`
even when the invalidator output was cut to `max_invalidations`
(`invalidations_truncation_unflagged` refutes the original claim's
invalidations-flag clause). -/
theorem caps_respected (b : BuilderCfg) (st : TrackerState)
    (inval : Option (List Hint)) (success : Bool) (errs : List Nat)
    (r : CascadeResponse) (st' : TrackerState)
    (h : build_response b st inval success errs = some (r, st')) :
    r.cascade.updated.length ≤ b.maxUpdatedEntities ∧
    r.cascade.deleted.length ≤ b.maxDeletedEntities ∧
    (∀ l, r.cascade.invalidations = some l → l.length ≤ b.maxInvalidations) ∧
    ((build_updated_entities st).length > b.maxUpdatedEntities →
      r.cascade.metadata.truncatedUpdated = true) ∧
    ((buildDeletedFrom st.deleted).length > b.maxDeletedEntities →
      r.cascade.metadata.truncatedDeleted = true) ∧
    r.cascade.metadata.truncatedInvalidations = false := by
  rw [build_response.eq_def] at h
  split at h
  · cases h
  · rename_i cd hcd
    split at h
    · cases h
    · rename_i p hend
      obtain ⟨d0, st0⟩ := p
      cases h
      have hcdval : cd = cascadeDataOf st := by
        rw [get_cascade_data] at hcd
        split at hcd
        · cases hcd
          rfl
        · cases hcd
      have hinv : (match inval, success with
          | some l, true => l.take b.maxInvalidations
          | _, _ => ([] : List Hint)).length ≤ b.maxInvalidations := by
        rcases inval with _ | l <;> rcases success <;>
          simp [List.length_take]
      have hlen := asl_lengths b cd.updated cd.deleted _ cd.metadata hinv
      have hfl := asl_flags b cd.updated cd.deleted _ cd.metadata hinv
      refine ⟨hlen.1, hlen.2.1, ?_, ?_, ?_, ?_⟩
      · intro l hl
        rw [hlen.2.2] at hl
        cases hl
        exact hinv
      · intro hgt
        apply hfl.1
        rw [hcdval]
        exact hgt
      · intro hgt
        apply hfl.2.1
        rw [hcdval]
        exact hgt
      · rw [hfl.2.2, hcdval]
        rfl

/-- Builder configuration with `max_updated_entities = 1`. -/
def bC6w : BuilderCfg := ⟨1, 100, 50, 5⟩

/-- Tracker with two tracked updated entities. -/
def stC6w : TrackerState :=
  ⟨true, [(("T", "1"), ⟨0, "CREATED"⟩), (("T", "2"), ⟨1, "CREATED"⟩)], [],
    [("T", "1"), ("T", "2")], 0, 0⟩

/-- Witness for `caps_respected` at a response whose `updated` list is
actually truncated. -/
theorem caps_respected_witness :
    (⟨true, ⟨[⟨"T", "1", "CREATED", 0⟩], [], some [],
        ⟨0, 2, true, false, false, false⟩⟩, []⟩ : CascadeResponse).cascade.updated.length ≤
      bC6w.maxUpdatedEntities ∧
    ((build_updated_entities stC6w).length > bC6w.maxUpdatedEntities →
      (⟨true, ⟨[⟨"T", "1", "CREATED", 0⟩], [], some [],
        ⟨0, 2, true, false, false, false⟩⟩, []⟩ : CascadeResponse).cascade.metadata.truncatedUpdated = true) ∧
    (⟨true, ⟨[⟨"T", "1", "CREATED", 0⟩], [], some [],
        ⟨0, 2, true, false, false, false⟩⟩, []⟩ : CascadeResponse).cascade.metadata.truncatedInvalidations = false := by
  have h := caps_respected bC6w stC6w none true []
    ⟨true, ⟨[⟨"T", "1", "CREATED", 0⟩], [], some [], ⟨0, 2, true, false, false, false⟩⟩, []⟩
    TrackerState.init (by decide)
  exact ⟨h.1, h.2.2.2.1, h.2.2.2.2.2⟩

/-- Two-entity cyclic graph: A#1 references B#1 which references A#1. -/
def gCyc : List EntityData := [⟨"A", "1", [1]⟩, ⟨"B", "1", [0]⟩]

/-- Configuration with `max_depth = 0`. -/
def cfg0 : Cfg := ⟨0, [], true⟩

/-- Claim C7: throughout every transaction the depth never exceeds
`max_depth` (the ghost `peak` records the largest depth reached, and the
depth itself is restored to 0 after every call), and with `max_depth = 0` a
single CREATE records exactly the root entity and never tracks a neighbor. -/
theorem depth_bounded (cfg : Cfg) (g : List EntityData) (calls : List TrackCall)
    (st : TrackerState) (hrun : run cfg g calls = some st) :
    st.peak ≤ cfg.maxDepth ∧ st.currentDepth = 0 ∧
    (cfg.maxDepth = 0 → ∀ e, calls = [TrackCall.create e] →
      (getEnt g e).typename ∉ cfg.excludeTypes →
      st.updated.map Prod.fst = [entityKey (getEnt g e)]) := by
  have hrun' : List.foldlM (stepCall cfg g) ⟨true, [], [], [], 0, 0⟩ calls = some st := by
    simpa [run, start_transaction, TrackerState.init] using hrun
  have hQ := foldlM_inv cfg g
    (fun s => s.currentDepth = 0 ∧ s.peak ≤ cfg.maxDepth) calls
    (fun c hc s s' hs hq => by
      cases c with
      | create e' =>
        simp only [stepCall, track_create] at hs
        split at hs
        · refine ⟨((trackEntityF_rel cfg g _ _ _ _ _ hs).2.2.1).trans hq.1, ?_⟩
          exact trackEntityF_peak cfg g _ _ _ _ _ hs
            (by rw [hq.1]; exact Nat.zero_le _) hq.2
        · cases hs
      | update e' =>
        simp only [stepCall, track_update] at hs
        split at hs
        · refine ⟨((trackEntityF_rel cfg g _ _ _ _ _ hs).2.2.1).trans hq.1, ?_⟩
          exact trackEntityF_peak cfg g _ _ _ _ _ hs
            (by rw [hq.1]; exact Nat.zero_le _) hq.2
        · cases hs
      | delete ty i =>
        simp only [stepCall, track_delete] at hs
        split at hs
        · cases hs
          exact ⟨hq.1, hq.2⟩
        · cases hs)
    _ _ hrun' ⟨rfl, Nat.zero_le _⟩
  refine ⟨hQ.2, hQ.1, ?_⟩
  intro h0 e hcalls hexc
  subst hcalls
  simp only [List.foldlM_cons, List.foldlM_nil] at hrun'
  obtain ⟨s1, hs1, hs2⟩ := Option.bind_eq_some.mp hrun'
  have hst : s1 = st := by
    simpa using hs2
  subst hst
  simp only [stepCall, track_create] at hs1
  rw [if_pos trivial] at hs1
  simp only [trackEntityF] at hs1
  rw [if_neg hexc] at hs1
  rw [if_neg (by simp)] at hs1
  rw [if_neg (by simp [h0])] at hs1
  cases hs1
  simp [dictInsert]

/-- Final state of the C7 witness run: CREATE A#1 with `max_depth = 0`. -/
def stC7w : TrackerState :=
  ⟨true, [(("A", "1"), ⟨0, "CREATED"⟩)], [], [("A", "1")], 0, 0⟩

/-- Witness for `depth_bounded` on the cyclic graph with `max_depth = 0`. -/
theorem depth_bounded_witness :
    stC7w.peak ≤ cfg0.maxDepth ∧ stC7w.currentDepth = 0 ∧
    stC7w.updated.map Prod.fst = [entityKey (getEnt gCyc 0)] :=
  have h := depth_bounded cfg0 gCyc [TrackCall.create 0] stC7w (by decide)
  ⟨h.1, h.2.1, h.2.2 rfl 0 rfl (by decide)⟩

/-- Configuration with `max_depth = 5`. -/
def cfg5 : Cfg := ⟨5, [], true⟩

/-- Claim C8: on well-formed graphs (cyclic or not) tracking terminates
(the fuel `g.length + 1` supplied by `track_create` always suffices), the
visited set never holds a key twice, and on the concrete two-node cycle a
CREATE of A#1 records exactly `{A,1}` then `{B,1}`, in that order. -/
theorem cyclic_traversal (cfg : Cfg) (g : List EntityData) (st : TrackerState)
    (e : Nat) (calls : List TrackCall) (st2 : TrackerState)
    (hg : ValidGraph g) (he : e < g.length) (ht : st.inTransaction = true)
    (hrun : run cfg g calls = some st2) :
    (track_create cfg g st e).isSome ∧ st2.visited.Nodup ∧
    (run cfg5 gCyc [.create 0]).map
        (fun s => s.updated.map (fun p => (p.1, p.2.operation))) =
      some [(("A", "1"), "CREATED"), (("B", "1"), "UPDATED")] := by
  refine ⟨?_, ?_, by decide⟩
  · rw [track_create, if_pos ht]
    apply trackEntityF_isSome_of_lt cfg g hg _ e _ st he
    have h1 : unvisited g st ≤ (keysOf g).card :=
      Finset.card_le_card (Finset.sdiff_subset)
    have h2 : (keysOf g).card ≤ g.length := by
      calc (keysOf g).card ≤ (g.map entityKey).length := List.toFinset_card_le _
        _ = g.length := by simp
    omega
  · have hrun' : List.foldlM (stepCall cfg g) ⟨true, [], [], [], 0, 0⟩ calls =
        some st2 := by
      simpa [run, start_transaction, TrackerState.init] using hrun
    refine foldlM_inv cfg g (fun s => s.visited.Nodup) calls
      (fun c hc s s' hs hq => by
        cases c with
        | create e' =>
          simp only [stepCall, track_create] at hs
          split at hs
          · exact trackEntityF_nodup cfg g _ _ _ _ _ hs hq
          · cases hs
        | update e' =>
          simp only [stepCall, track_update] at hs
          split at hs
          · exact trackEntityF_nodup cfg g _ _ _ _ _ hs hq
          · cases hs
        | delete ty i =>
          simp only [stepCall, track_delete] at hs
          split at hs
          · cases hs
            exact hq
          · cases hs)
      _ _ hrun' (by simp)

/-- Final state of the C8 witness run: CREATE A#1 on the cycle, depth 5. -/
def stC8w : TrackerState :=
  ⟨true, [(("A", "1"), ⟨0, "CREATED"⟩), (("B", "1"), ⟨1, "UPDATED"⟩)], [],
    [("A", "1"), ("B", "1")], 0, 2⟩

/-- Witness for `cyclic_traversal` at the concrete two-node cycle. -/
theorem cyclic_traversal_witness :
    (track_create cfg5 gCyc stB0 0).isSome ∧ stC8w.visited.Nodup :=
  have h := cyclic_traversal cfg5 gCyc stB0 0 [TrackCall.create 0] stC8w
    (by decide) (by decide) (by decide) (by decide)
  ⟨h.1, h.2.1⟩

/-- Claim C9 support: three delete events record exactly the three keys (in
insertion order in the model) with `affected_count = 3`; but
`_build_deleted_entities` iterates `deleted_entities`, a Python *set*, and
some enumeration of that very set yields the records in a different order —
so the emission order of the `deleted` list is not guaranteed by the code. -/
theorem deleted_set_order_unspecified :
    ∃ st, run cfgA []
        [.delete "User" "1", .delete "Todo" "a", .delete "Todo" "b"] = some st ∧
      st.deleted = [("User", "1"), ("Todo", "a"), ("Todo", "b")] ∧
      (end_transaction st).map (fun p => p.1.metadata.affectedCount) = some 3 ∧
      ∃ enum : List Key, enum.Perm st.deleted ∧
        buildDeletedFrom enum ≠ buildDeletedFrom st.deleted := by
  refine ⟨⟨true, [], [("User", "1"), ("Todo", "a"), ("Todo", "b")], [], 0, 0⟩,
    ?_, ?_, ?_, ⟨[("Todo", "a"), ("User", "1"), ("Todo", "b")], ?_, ?_⟩⟩
  · decide
  · decide
  · decide
  · decide
  · decide

/-- Claim C10: `build_response` raises (`none`) whenever no transaction is in
progress (`get_cascade_data` raises first), while `build_error_response`
tolerates the missing transaction and returns an empty error cascade leaving
the tracker untouched. -/
theorem build_response_requires_transaction
    (b : BuilderCfg) (st : TrackerState) (inval : Option (List Hint))
    (success : Bool) (errs : List Nat)
    (h : st.inTransaction = false) :
    build_response b st inval success errs = none ∧
    (build_error_response st errs).1.success = false ∧
    (build_error_response st errs).1.cascade = ⟨[], [], some [], Metadata.mk0 0 0⟩ ∧
    (build_error_response st errs).2 = st := by
  refine ⟨?_, ?_, ?_, ?_⟩
  · rw [build_response.eq_def]
    have hg : get_cascade_data st = none := by
      rw [get_cascade_data, if_neg (by simp [h])]
    rw [hg]
  · simp [build_error_response, h]
  · simp [build_error_response, h]
  · simp [build_error_response, h]

/-- Witness for `build_response_requires_transaction` at a fresh tracker. -/
theorem build_response_requires_transaction_witness :
    build_response bC6 TrackerState.init none true [] = none ∧
    (build_error_response TrackerState.init []).1.success = false ∧
    (build_error_response TrackerState.init []).2 = TrackerState.init :=
  have h := build_response_requires_transaction bC6 TrackerState.init none true [] rfl
  ⟨h.1, h.2.1, h.2.2.2⟩
